import Mathlib

/-!
Shallow embedding of the Akumuli page-storage layer (`src/include/page.h`).

The repository ships only the header with declarations and doc comments; all
method bodies live outside `src/`.  Every operation below is therefore
modelled from the natural-language spec (`spec.md`) and the doc comments in
`page.h`, faithful to their words: the page is a fixed-capacity buffer whose
index of 32-bit offsets grows up from the fixed header while entry records
are packed down from the high end; `add_entry` appends, `sort` stably
reorders the index by (key, timestamp), and searches run over the sorted
index.  Machine integers are modelled as `Nat`/`Int` with explicit wrapping
where the C types make overflow observable (`copy_entry` returns `int`).
-/

set_option maxHeartbeats 1000000

namespace Akumuli

/-- Maximum page size in bytes (`AKU_MAX_PAGE_SIZE` in `page.h`). -/
def AKU_MAX_PAGE_SIZE : Int := 0x100000000

/-- Maximum representable page offset (`AKU_MAX_PAGE_OFFSET` in `page.h`). -/
def AKU_MAX_PAGE_OFFSET : Int := 0xFFFFFFFF

/-- Parameter identifier (`typedef uint32_t ParamId`). -/
abbrev ParamId := Nat

/-- Offset of an entry inside a page (`typedef uint32_t EntryOffset`). -/
abbrev EntryOffset := Nat

/-- Timestamp: number of microseconds since epoch, a signed 64-bit value
(`int64_t precise` in `page.h`), totally ordered by integer comparison. -/
structure TimeStamp where
  precise : Int
  deriving DecidableEq, Repr

/-- `TimeStamp::MAX_TIMESTAMP`: the maximum possible 64-bit timestamp. -/
def TimeStamp.MAX_TIMESTAMP : TimeStamp := ⟨2 ^ 63 - 1⟩

/-- `TimeStamp::MIN_TIMESTAMP`: the minimum possible 64-bit timestamp. -/
def TimeStamp.MIN_TIMESTAMP : TimeStamp := ⟨-(2 ^ 63)⟩

/-- Data entry (`struct Entry`): key (`param_id : u32`), timestamp, total
record length in bytes (`length : u32`, fixed header plus variable payload)
and the payload words (`uint32_t value[]`). -/
structure Entry where
  param_id : ParamId
  time : TimeStamp
  length : Nat
  value : List Nat
  deriving DecidableEq, Repr

/-- Page type (`enum PageType`). -/
inductive PageType where
  | Metadata
  | Index
  deriving DecidableEq, Repr

/-- Page bounding box (`struct PageBoundingBox`): minimum/maximum key and
timestamp observed in the page. -/
structure PageBoundingBox where
  min_id : ParamId
  max_id : ParamId
  min_timestamp : TimeStamp
  max_timestamp : TimeStamp
  deriving DecidableEq, Repr

/-- Modelled from the spec: the missing `PageBoundingBox` constructor body.
The box starts at the invert-extreme sentinel (`min` at the maximum value,
`max` at the minimum value) so the first inserted entry redefines both
bounds. -/
def PageBoundingBox.init : PageBoundingBox :=
  { min_id := 0xFFFFFFFF
    max_id := 0
    min_timestamp := TimeStamp.MAX_TIMESTAMP
    max_timestamp := TimeStamp.MIN_TIMESTAMP }

/-- In-memory page representation (`struct PageHeader`).  The raw byte
buffer is embedded as the index array (offsets, growing up from the fixed
header) together with the data region modelled as an association of offsets
to the records packed there (growing down from the page end). -/
structure PageHeader where
  type : PageType
  count : Nat
  last_offset : Nat
  length : Nat
  overwrites_count : Nat
  page_id : Nat
  bbox : PageBoundingBox
  page_index : List EntryOffset
  storage : List (EntryOffset × Entry)
  deriving DecidableEq, Repr

/-- Size in bytes of the fixed part of `PageHeader` (`sizeof(PageHeader)`
with natural alignment: type 4 + count 4 + last_offset 4 + pad 4 +
length 8 + overwrites_count 4 + page_id 4 + bounding box 24). -/
def PAGE_HEADER_SIZE : Nat := 56

/-- Size in bytes of one index slot (`sizeof(EntryOffset)`). -/
def INDEX_ENTRY_SIZE : Nat := 4

/-- Modelled from the spec: the missing `PageHeader` constructor body.
Initializes metadata, a zero-length index, and the invert-extreme bounding
box; the entry region is empty so its low-water mark is the page end. -/
def PageHeader.make (t : PageType) (count : Nat) (len : Nat) (page_id : Nat) :
    PageHeader :=
  { type := t
    count := count
    last_offset := len
    length := len
    overwrites_count := 0
    page_id := page_id
    bbox := PageBoundingBox.init
    page_index := []
    storage := [] }

/-- Modelled from the spec: the missing `PageHeader::clear` body.  Resets
the entry count, the index and the bounding box, bumps the overwrite
generation, and forgets (but does not erase) the payload bytes. -/
def PageHeader.clear (p : PageHeader) : PageHeader :=
  { p with
    count := 0
    last_offset := p.length
    overwrites_count := p.overwrites_count + 1
    bbox := PageBoundingBox.init
    page_index := [] }

/-- Modelled from the spec: the missing `PageHeader::get_entries_count`
body: the number of entries stored in the page. -/
def PageHeader.get_entries_count (p : PageHeader) : Int := (p.count : Int)

/-- Modelled from the spec: the missing `PageHeader::get_free_space` body:
(entry-region low-water-mark) − (index high-water-mark) − reservation for
one more index slot, recomputed from the current boundaries. -/
def PageHeader.get_free_space (p : PageHeader) : Int :=
  (p.last_offset : Int) - (PAGE_HEADER_SIZE + INDEX_ENTRY_SIZE * p.count)
    - INDEX_ENTRY_SIZE

/-- Modelled from the spec: the missing `PageHeader::update_bounding_box`
body: extend the box so that it contains `(param, time)`; it never
shrinks. -/
def PageHeader.update_bounding_box (b : PageBoundingBox) (param : ParamId)
    (time : TimeStamp) : PageBoundingBox :=
  { min_id := min b.min_id param
    max_id := max b.max_id param
    min_timestamp := ⟨min b.min_timestamp.precise time.precise⟩
    max_timestamp := ⟨max b.max_timestamp.precise time.precise⟩ }

/-- Modelled from the spec: the missing `PageHeader::inside_bbox` body:
true iff the key lies in `[min_id, max_id]` and the timestamp in
`[min_timestamp, max_timestamp]`. -/
def PageHeader.inside_bbox (p : PageHeader) (param : ParamId)
    (time : TimeStamp) : Bool :=
  decide (p.bbox.min_id ≤ param) && decide (param ≤ p.bbox.max_id) &&
  decide (p.bbox.min_timestamp.precise ≤ time.precise) &&
  decide (time.precise ≤ p.bbox.max_timestamp.precise)

/-- Status codes returned by `add_entry` (`AKU_WRITE_STATUS_*`): a distinct
success code and a distinct out-of-space failure code. -/
inductive AkuWriteStatus where
  | success
  | outOfSpace
  deriving DecidableEq, Repr

/-- Modelled from the spec: the missing `PageHeader::add_entry` body.  If
the record does not fit in the current free space the page is returned
unchanged with the failure code; otherwise the record is packed immediately
below the entry region's low boundary, its offset is appended to the index,
and `count`, `last_offset` and the bounding box are updated. -/
def PageHeader.add_entry (p : PageHeader) (e : Entry) :
    AkuWriteStatus × PageHeader :=
  if p.get_free_space < (e.length : Int) then
    (AkuWriteStatus.outOfSpace, p)
  else
    let off : EntryOffset := p.last_offset - e.length
    (AkuWriteStatus.success,
      { p with
        count := p.count + 1
        last_offset := off
        bbox := PageHeader.update_bounding_box p.bbox e.param_id e.time
        page_index := p.page_index ++ [off]
        storage := (off, e) :: p.storage })

/-- Modelled from the spec: the missing `PageHeader::read_entry` body:
zero-copy accessor; `none` (NULL) if the index is outside
`[0, entry_count)`, otherwise the record found by dereferencing
`page_index[index]` into the data region. -/
def PageHeader.read_entry (p : PageHeader) (index : Int) : Option Entry :=
  if 0 ≤ index ∧ index < (p.count : Int) then
    p.page_index[index.toNat]?.bind (fun off => p.storage.lookup off)
  else
    none

/-- Modelled from the spec: the missing `PageHeader::get_entry_length`
body: 0 if the index is out of range, the stored record's `length` field
otherwise. -/
def PageHeader.get_entry_length (p : PageHeader) (index : Int) : Int :=
  match p.read_entry index with
  | none => 0
  | some e => (e.length : Int)

/-- Interpret a natural number as a C `int`: reduce modulo `2^32` and map
the upper half to negative values (two's complement). -/
def toInt32 (n : Nat) : Int :=
  if n % 2 ^ 32 < 2 ^ 31 then ((n % 2 ^ 32 : Nat) : Int)
  else ((n % 2 ^ 32 : Nat) : Int) - 2 ^ 32

/-- The C expression `-1 * x` evaluated in `uint32_t` arithmetic. -/
def negWrap32 (n : Nat) : Nat := (2 ^ 32 - n % 2 ^ 32) % 2 ^ 32

/-- Modelled from the spec: the missing `PageHeader::copy_entry` body.
`receiver_length` is the receiver's declared capacity.  Returns the C `int`
result together with the record written into the receiver (`none` when
nothing is written): 0 when the index is out of range, `-1*entry.length`
(computed in 32-bit arithmetic, as the declared `int` return type forces)
without writing when the receiver is too small, and `entry.length` after
copying the full record otherwise. -/
def PageHeader.copy_entry (p : PageHeader) (index : Int)
    (receiver_length : Nat) : Int × Option Entry :=
  match p.read_entry index with
  | none => (0, none)
  | some e =>
    if receiver_length < e.length then (toInt32 (negWrap32 e.length), none)
    else (toInt32 e.length, some e)

/-- A structurally valid page: the entry count matches the index length and
every index slot dereferences to a record in the data region. -/
def WellFormed (p : PageHeader) : Prop :=
  p.count = p.page_index.length ∧
  ∀ off ∈ p.page_index, (p.storage.lookup off).isSome

instance (p : PageHeader) : Decidable (WellFormed p) := by
  unfold WellFormed
  infer_instance

/-- Concrete entry used by the witnesses: 16-byte fixed header plus a
16-byte payload. -/
def wEntry : Entry := { param_id := 7, time := ⟨100⟩, length := 32, value := [1, 2, 3, 4] }

/-- Concrete freshly-constructed 4096-byte index page. -/
def wPage : PageHeader := PageHeader.make PageType.Index 0 4096 0

/-- `wPage` after appending `wEntry`. -/
def wPage1 : PageHeader := (wPage.add_entry wEntry).2

/-- Concrete entry too large to fit in `wPage`. -/
def hugeEntry : Entry := { param_id := 9, time := ⟨50⟩, length := 100000, value := [] }

/-- Concrete entry whose `length` field exceeds `2^31 - 1` (the record
would occupy just over 2 GiB of a near-4 GiB page). -/
def bigEntry : Entry := { param_id := 1, time := ⟨0⟩, length := 2 ^ 31 + 1, value := [] }

/-- A near-4 GiB page holding `bigEntry` at index 0, built through
`add_entry`. -/
def bigPage : PageHeader := ((PageHeader.make PageType.Index 0 (2 ^ 32) 0).add_entry bigEntry).2

/-- `toInt32` is the identity on values below `2^31`. -/
theorem toInt32_of_lt (n : Nat) (h : n < 2 ^ 31) : toInt32 n = (n : Int) := by
  unfold toInt32
  split <;> omega

/-- For lengths representable in a C `int`, the 32-bit computation
`-1 * length` converted back to `int` is mathematical negation. -/
theorem toInt32_negWrap32 (n : Nat) (h : n ≤ 2 ^ 31 - 1) :
    toInt32 (negWrap32 n) = -(n : Int) := by
  unfold toInt32 negWrap32
  split <;> omega

/-- The (key, timestamp) pair of the record stored at offset `off` — the
comparison key used by `sort` and by the searches; `(0, 0)` when the
offset does not dereference (never the case on a well-formed page). -/
def PageHeader.key_time (p : PageHeader) (off : EntryOffset) : Nat × Int :=
  match p.storage.lookup off with
  | some e => (e.param_id, e.time.precise)
  | none => (0, 0)

/-- Strict lexicographic order on (key, timestamp) pairs. -/
def pairLt (a b : Nat × Int) : Prop := a.1 < b.1 ∨ (a.1 = b.1 ∧ a.2 < b.2)

/-- Lexicographic order on (key, timestamp) pairs: key ascending, then
timestamp ascending. -/
def pairLe (a b : Nat × Int) : Prop := a.1 < b.1 ∨ (a.1 = b.1 ∧ a.2 ≤ b.2)

instance (a b : Nat × Int) : Decidable (pairLt a b) := by
  unfold pairLt
  infer_instance

instance (a b : Nat × Int) : Decidable (pairLe a b) := by
  unfold pairLe
  infer_instance

/-- Index comparison used by `PageHeader::sort`: dereference both offsets
and compare (key, timestamp) lexicographically. -/
def PageHeader.entry_le (p : PageHeader) (o1 o2 : EntryOffset) : Prop :=
  pairLe (p.key_time o1) (p.key_time o2)

instance (p : PageHeader) : DecidableRel p.entry_le := fun o1 o2 => by
  unfold PageHeader.entry_le
  infer_instance

instance (p : PageHeader) : IsTotal EntryOffset p.entry_le :=
  ⟨fun o1 o2 => by unfold PageHeader.entry_le pairLe; omega⟩

instance (p : PageHeader) : IsTrans EntryOffset p.entry_le :=
  ⟨fun o1 o2 o3 => by unfold PageHeader.entry_le pairLe; omega⟩

/-- Modelled from the spec: the missing `PageHeader::sort` body: stably
reorder the index in place so the indexed entries are totally ordered by
(key ascending, timestamp ascending), entries sharing both key and
timestamp keeping their insertion order. -/
def PageHeader.sort (p : PageHeader) : PageHeader :=
  { p with page_index := p.page_index.insertionSort p.entry_le }

/-- The (key, timestamp) pair of the entry at index position `i`. -/
def PageHeader.key_time_at (p : PageHeader) (i : Nat) : Nat × Int :=
  p.key_time (p.page_index.getD i 0)

/-- Binary-search loop of `PageHeader::search`: narrow `[lo, hi)` to the
first index position whose (key, timestamp) is not lexicographically below
the target. -/
def PageHeader.lbAux (p : PageHeader) (target : Nat × Int) (lo hi : Nat) : Nat :=
  if h : lo < hi then
    let mid := (lo + hi) / 2
    if pairLt (p.key_time_at mid) target then p.lbAux target (mid + 1) hi
    else p.lbAux target lo mid
  else lo
termination_by hi - lo
decreasing_by
  · omega
  · omega

/-- First index position whose entry is not lexicographically below
`(param, lowerbound)`. -/
def PageHeader.page_lowerBound (p : PageHeader) (param : ParamId) (lowerbound : Int) : Nat :=
  p.lbAux (param, lowerbound) 0 p.count

/-- Modelled from the spec: the missing point-search
`PageHeader::search(param, lowerbound, EntryOffset*)` body: binary search
over the sorted index for the first entry with the given key and a
timestamp at least `lowerbound`; the result is the offset written through
the out-parameter, `none` standing for a `false` return. -/
def PageHeader.search_point (p : PageHeader) (param : ParamId)
    (lowerbound : TimeStamp) : Option EntryOffset :=
  let i0 := p.page_lowerBound param lowerbound.precise
  if i0 < p.count ∧ (p.key_time_at i0).1 = param then
    some (p.page_index.getD i0 0)
  else
    none

/-- Entries appended for the sorted witness page. -/
def wEntryT (ts : Int) (payload : Nat) : Entry :=
  { param_id := 7, time := ⟨ts⟩, length := 32, value := [payload] }

/-- A concrete sorted three-entry page (key 7 at timestamps 100, 200, 300,
appended out of order and then sorted). -/
def wSortedPage : PageHeader :=
  ((((wPage.add_entry (wEntryT 200 1)).2.add_entry (wEntryT 100 2)).2.add_entry
    (wEntryT 300 3)).2).sort

/-- Cursor FSM states (`PageCursor::state` in the spec:
`NOT_STARTED → SCANNING → (BUFFER_FULL | EXHAUSTED)`; between calls the
observable state is never `scanning`). -/
inductive CursorState where
  | notStarted
  | scanning
  | bufferFull
  | exhausted
  deriving DecidableEq, Repr

/-- Base resumable page cursor (`struct PageCursor`): the caller-owned
results buffer (with its capacity and fill level), the completion flag,
the traversal indices and the FSM state. -/
structure PageCursor where
  results : List Nat
  results_cap : Nat
  results_num : Nat
  done : Bool
  start_index : Nat
  probe_index : Nat
  state : CursorState
  deriving DecidableEq, Repr

/-- Cursor for a single-parameter time-range query
(`struct SingleParameterCursor`). -/
structure SingleParameterCursor extends PageCursor where
  param : ParamId
  lowerbound : TimeStamp
  upperbound : TimeStamp
  deriving DecidableEq, Repr

/-- Modelled from the spec: the missing `SingleParameterCursor`
constructor body: a fresh not-started cursor over an empty caller buffer
of the given capacity. -/
def SingleParameterCursor.make (pid : ParamId) (low upp : TimeStamp)
    (cap : Nat) : SingleParameterCursor :=
  { results := []
    results_cap := cap
    results_num := 0
    done := false
    start_index := 0
    probe_index := 0
    state := CursorState.notStarted
    param := pid
    lowerbound := low
    upperbound := upp }

/-- The caller draining the results buffer between two driven calls. -/
def SingleParameterCursor.drain (c : SingleParameterCursor) :
    SingleParameterCursor :=
  { c with results := [], results_num := 0 }

/-- The linear-scan condition of the range search at index position `i`:
the entry carries the cursor's key and its timestamp is not above the
upper bound. -/
def PageHeader.scan_cond (p : PageHeader) (param : ParamId) (ub : Int)
    (i : Nat) : Prop :=
  (p.key_time_at i).1 = param ∧ (p.key_time_at i).2 ≤ ub

instance (p : PageHeader) (param : ParamId) (ub : Int) (i : Nat) :
    Decidable (p.scan_cond param ub i) := by
  unfold PageHeader.scan_cond
  infer_instance

/-- Linear-scan loop of the cursor search: walk forward appending matching
index positions into the results until the buffer is full or the matching
run ends; returns the results, the new probe position, and whether the
run was exhausted. -/
def PageHeader.scan_aux (p : PageHeader) (param : ParamId) (ub : Int)
    (cap : Nat) (probe : Nat) (acc : List Nat) : List Nat × Nat × Bool :=
  if _h : probe < p.count ∧ p.scan_cond param ub probe then
    if acc.length < cap then
      p.scan_aux param ub cap (probe + 1) (acc ++ [probe])
    else (acc, probe, false)
  else (acc, probe, true)
termination_by p.count - probe
decreasing_by
  have := _h.1
  omega

/-- Modelled from the spec: the missing range-search
`PageHeader::search(SingleParameterCursor*)` body.  On a fresh cursor it
locates the lower boundary of the matching run by binary search on
(param, lowerbound) and starts scanning there; on a buffer-full cursor it
resumes scanning at `probe_index`.  Matching index positions are appended
to the results up to the buffer capacity; `done` (and the `exhausted`
state) is set exactly when the matching run ends; an exhausted cursor is
left untouched. -/
def PageHeader.search_cursor (p : PageHeader) (c : SingleParameterCursor) :
    SingleParameterCursor :=
  match c.state with
  | CursorState.notStarted =>
    let i0 := p.page_lowerBound c.param c.lowerbound.precise
    let r := p.scan_aux c.param c.upperbound.precise c.results_cap i0 c.results
    { c with
      results := r.1
      results_num := r.1.length
      start_index := i0
      probe_index := r.2.1
      done := r.2.2
      state := if r.2.2 then CursorState.exhausted else CursorState.bufferFull }
  | CursorState.bufferFull =>
    let r := p.scan_aux c.param c.upperbound.precise c.results_cap
      c.probe_index c.results
    { c with
      results := r.1
      results_num := r.1.length
      probe_index := r.2.1
      done := r.2.2
      state := if r.2.2 then CursorState.exhausted else CursorState.bufferFull }
  | _ => c

/-- `n` driven calls to the cursor search, the caller draining the results
buffer before every call. -/
def PageHeader.iterate_search (p : PageHeader) (c : SingleParameterCursor) :
    Nat → SingleParameterCursor
  | 0 => c
  | n + 1 => p.search_cursor (SingleParameterCursor.drain (p.iterate_search c n))

/-- Index position `i` matches the single-parameter range query: it holds
the query key and its timestamp lies in `[lb, ub]`. -/
def PageHeader.qualifies (p : PageHeader) (param : ParamId) (lb ub : Int)
    (i : Nat) : Prop :=
  i < p.count ∧ (p.key_time_at i).1 = param ∧
    lb ≤ (p.key_time_at i).2 ∧ (p.key_time_at i).2 ≤ ub

instance (p : PageHeader) (param : ParamId) (lb ub : Int) (i : Nat) :
    Decidable (p.qualifies param lb ub i) := by
  unfold PageHeader.qualifies
  infer_instance

/-- The list of matching index positions of a range query, in index
order. -/
def PageHeader.matches_list (p : PageHeader) (param : ParamId) (lb ub : Int) :
    List Nat :=
  (List.range p.count).filter (fun i => decide (p.qualifies param lb ub i))

/-- Folding a sequence of `add_entry` calls over a page. -/
def PageHeader.appendAll (p : PageHeader) (es : List Entry) : PageHeader :=
  es.foldl (fun q e => (q.add_entry e).2) p

/-- Every append in the sequence reports success. -/
def PageHeader.appendAllOk : PageHeader → List Entry → Prop
  | _, [] => True
  | p, e :: es =>
    (p.add_entry e).1 = AkuWriteStatus.success ∧ (p.add_entry e).2.appendAllOk es

/-- `appendAllOk` is decidable (so witnesses can be checked by
evaluation). -/
def decAppendAllOk : (p : PageHeader) → (es : List Entry) →
    Decidable (p.appendAllOk es)
  | _, [] => isTrue trivial
  | p, e :: es =>
    @instDecidableAnd _ _ _ (decAppendAllOk (p.add_entry e).2 es)

instance (p : PageHeader) (es : List Entry) : Decidable (p.appendAllOk es) :=
  decAppendAllOk p es

/-- The bounding box `b1` is contained in `b2`. -/
def bbox_subset (b1 b2 : PageBoundingBox) : Prop :=
  b2.min_id ≤ b1.min_id ∧ b1.max_id ≤ b2.max_id ∧
  b2.min_timestamp.precise ≤ b1.min_timestamp.precise ∧
  b1.max_timestamp.precise ≤ b2.max_timestamp.precise

/-- The bounding box contains the (key, timestamp) pair. -/
def bbox_contains (b : PageBoundingBox) (param : ParamId) (t : Int) : Prop :=
  b.min_id ≤ param ∧ param ≤ b.max_id ∧
  b.min_timestamp.precise ≤ t ∧ t ≤ b.max_timestamp.precise

instance (b : PageBoundingBox) (param : ParamId) (t : Int) :
    Decidable (bbox_contains b param t) := by
  unfold bbox_contains
  infer_instance

/-- Every index slot that dereferences lands on a record inside the
current bounding box.  This is the invariant the claim's "cleared or
freshly constructed page" lifecycle maintains: stale storage left behind
by `clear` is unreachable through the (emptied) index and therefore
exempt. -/
def ReachInBox (p : PageHeader) : Prop :=
  ∀ off ∈ p.page_index, ∀ e, p.storage.lookup off = some e →
    bbox_contains p.bbox e.param_id e.time.precise

/-- Decidability of the per-offset condition of `ReachInBox`. -/
def decReachAt (p : PageHeader) (off : EntryOffset) :
    Decidable (∀ e, p.storage.lookup off = some e →
      bbox_contains p.bbox e.param_id e.time.precise) :=
  match h : p.storage.lookup off with
  | some e =>
    if hb : bbox_contains p.bbox e.param_id e.time.precise then
      isTrue (fun e2 he2 => by
        obtain rfl : e = e2 := by injection he2
        exact hb)
    else
      isFalse (fun hall => hb (hall e rfl))
  | none =>
    isTrue (fun e2 he2 => by
      exact absurd he2 (by simp))

instance (p : PageHeader) : Decidable (ReachInBox p) := by
  unfold ReachInBox
  letI : DecidablePred (fun off => ∀ e, p.storage.lookup off = some e →
      bbox_contains p.bbox e.param_id e.time.precise) := decReachAt p
  exact List.decidableBAll _ _

/-- A stale entry (key 100) appended before a `clear`. -/
def wStaleEntry : Entry :=
  { param_id := 100, time := ⟨999⟩, length := 32, value := [9] }

/-- A cleared-then-refilled sorted page: key 100 is appended, the page is
cleared (the stale record stays in storage while the box resets), then
three key-7 entries are appended and the page sorted. -/
def wClearedPage : PageHeader :=
  (((((wPage.add_entry wStaleEntry).2.clear.add_entry
    (wEntryT 200 1)).2.add_entry (wEntryT 100 2)).2.add_entry
    (wEntryT 300 3)).2).sort

/-! ### Claim theorems -/

/-- `pairLe` is reflexive. -/
theorem pairLe_refl (a : Nat × Int) : pairLe a a := by
  unfold pairLe
  omega

/-- `pairLe` composes with `pairLt` on the right. -/
theorem pairLe_lt_trans {a b c : Nat × Int} (h1 : pairLe a b) (h2 : pairLt b c) :
    pairLt a c := by
  unfold pairLe at h1
  unfold pairLt at h2 ⊢
  omega

/-- On a well-formed sorted page the position-indexed (key, timestamp)
sequence is monotone. -/
theorem key_time_at_mono (p : PageHeader) (hwf : WellFormed p)
    (hs : List.Sorted p.entry_le p.page_index) :
    ∀ i j, i ≤ j → j < p.count → pairLe (p.key_time_at i) (p.key_time_at j) := by
  intro i j hij hj
  rcases eq_or_lt_of_le hij with rfl | hlt
  · exact pairLe_refl _
  · obtain ⟨hc, _⟩ := hwf
    have hj' : j < p.page_index.length := by omega
    have hi' : i < p.page_index.length := by omega
    have hrel := List.Sorted.rel_get_of_lt hs (a := ⟨i, hi'⟩) (b := ⟨j, hj'⟩) hlt
    unfold PageHeader.entry_le at hrel
    unfold PageHeader.key_time_at
    simp only [List.getD_eq_getElem?_getD, List.getElem?_eq_getElem hi',
      List.getElem?_eq_getElem hj', Option.getD_some]
    simpa using hrel

/-- Specification of the binary-search loop `lbAux`: starting from a
bracket `[lo, hi]` whose outside is already classified, it returns the
first position in `[0, n)` that is not lexicographically below the
target. -/
theorem lbAux_spec (p : PageHeader) (target : Nat × Int) (n : Nat)
    (hmono : ∀ i j, i ≤ j → j < n → pairLe (p.key_time_at i) (p.key_time_at j)) :
    ∀ fuel lo hi, hi - lo ≤ fuel → lo ≤ hi → hi ≤ n →
      (∀ i, i < lo → pairLt (p.key_time_at i) target) →
      (∀ i, hi ≤ i → i < n → ¬ pairLt (p.key_time_at i) target) →
      lo ≤ p.lbAux target lo hi ∧ p.lbAux target lo hi ≤ hi ∧
      (∀ i, i < p.lbAux target lo hi → pairLt (p.key_time_at i) target) ∧
      (∀ i, p.lbAux target lo hi ≤ i → i < n →
        ¬ pairLt (p.key_time_at i) target) := by
  intro fuel
  induction fuel with
  | zero =>
    intro lo hi hfuel hlohi hhin hlo hhi
    have hle : hi ≤ lo := by omega
    rw [PageHeader.lbAux, dif_neg (by omega)]
    exact ⟨le_refl _, hlohi, hlo, fun i h1 h2 => hhi i (by omega) h2⟩
  | succ fuel ih =>
    intro lo hi hfuel hlohi hhin hlo hhi
    rw [PageHeader.lbAux]
    by_cases hcase : lo < hi
    · rw [dif_pos hcase]
      simp only
      by_cases hmid : pairLt (p.key_time_at ((lo + hi) / 2)) target
      · rw [if_pos hmid]
        refine (ih ((lo + hi) / 2 + 1) hi (by omega) (by omega) hhin ?_ hhi).imp
          (fun h => by omega) (fun h => h)
        intro i hilt
        by_cases hi2 : i < lo
        · exact hlo i hi2
        · exact pairLe_lt_trans (hmono i ((lo + hi) / 2) (by omega) (by omega)) hmid
      · rw [if_neg hmid]
        refine (ih lo ((lo + hi) / 2) (by omega) (by omega) (by omega) hlo ?_).imp
          (fun h => h) (fun h => ⟨by omega, h.2⟩)
        intro i hile hin hcontra
        exact hmid (pairLe_lt_trans (hmono ((lo + hi) / 2) i hile hin) hcontra)
    · rw [dif_neg hcase]
      have : lo = hi := by omega
      exact ⟨le_refl _, by omega, hlo, fun i h1 h2 => hhi i (by omega) h2⟩

/-- Unfolding `pairLt` against a literal pair. -/
theorem pairLt_iff (a : Nat × Int) (k : Nat) (t : Int) :
    pairLt a (k, t) ↔ (a.1 < k ∨ (a.1 = k ∧ a.2 < t)) := Iff.rfl

/-- Unfolding `pairLe` between two pairs. -/
theorem pairLe_iff (a b : Nat × Int) :
    pairLe a b ↔ (a.1 < b.1 ∨ (a.1 = b.1 ∧ a.2 ≤ b.2)) := Iff.rfl

/-- `page_lowerBound` on a well-formed sorted page is the first position
whose (key, timestamp) is not lexicographically below `(param, lb)`. -/
theorem page_lowerBound_spec (p : PageHeader) (param : ParamId) (lb : Int)
    (hwf : WellFormed p) (hs : List.Sorted p.entry_le p.page_index) :
    p.page_lowerBound param lb ≤ p.count ∧
    (∀ i, i < p.page_lowerBound param lb →
      pairLt (p.key_time_at i) (param, lb)) ∧
    (∀ i, p.page_lowerBound param lb ≤ i → i < p.count →
      ¬ pairLt (p.key_time_at i) (param, lb)) := by
  have h := lbAux_spec p (param, lb) p.count (key_time_at_mono p hwf hs)
    p.count 0 p.count (by omega) (by omega) (le_refl _)
    (fun i h1 => absurd h1 (by omega))
    (fun i h1 h2 hP => absurd h1 (by omega))
  exact ⟨h.2.1, h.2.2.1, h.2.2.2⟩

/-- Claim C5: on a well-formed sorted page, point search returns true iff
some stored entry has the requested key and a timestamp at least the lower
bound; and the offset it writes designates the first qualifying index
position, whose timestamp is minimal among all qualifying entries. -/
theorem search_point_correct (p : PageHeader) (param : ParamId) (lb : TimeStamp)
    (hwf : WellFormed p) (hs : List.Sorted p.entry_le p.page_index) :
    ((p.search_point param lb).isSome ↔
      ∃ i, i < p.count ∧ (p.key_time_at i).1 = param ∧
        lb.precise ≤ (p.key_time_at i).2) ∧
    (∀ off, p.search_point param lb = some off →
      ∃ i0, i0 < p.count ∧ p.page_index.getD i0 0 = off ∧
        (p.key_time_at i0).1 = param ∧ lb.precise ≤ (p.key_time_at i0).2 ∧
        (∀ j, j < i0 →
          ¬ ((p.key_time_at j).1 = param ∧ lb.precise ≤ (p.key_time_at j).2)) ∧
        (∀ j, j < p.count → (p.key_time_at j).1 = param →
          lb.precise ≤ (p.key_time_at j).2 →
          (p.key_time_at i0).2 ≤ (p.key_time_at j).2)) := by
  obtain ⟨hle, hA, hB⟩ := page_lowerBound_spec p param lb.precise hwf hs
  set i0 := p.page_lowerBound param lb.precise with hi0
  have hunf : p.search_point param lb =
      if i0 < p.count ∧ (p.key_time_at i0).1 = param then
        some (p.page_index.getD i0 0)
      else none := rfl
  constructor
  · constructor
    · intro hsome
      by_cases hcond : i0 < p.count ∧ (p.key_time_at i0).1 = param
      · have hq := hB i0 (le_refl _) hcond.1
        rw [pairLt_iff] at hq
        exact ⟨i0, hcond.1, hcond.2, by omega⟩
      · rw [hunf, if_neg hcond] at hsome
        simp at hsome
    · rintro ⟨i, hi, hkey, hts⟩
      have hnotlt : ¬ pairLt (p.key_time_at i) (param, lb.precise) := by
        rw [pairLt_iff]
        omega
      have hge : i0 ≤ i := by
        by_contra hc
        exact hnotlt (hA i (by omega))
      have hi0n : i0 < p.count := by omega
      have hmono := key_time_at_mono p hwf hs i0 i hge hi
      have hB0 := hB i0 (le_refl _) hi0n
      rw [pairLe_iff] at hmono
      rw [pairLt_iff] at hB0
      have hkey0 : (p.key_time_at i0).1 = param := by omega
      rw [hunf, if_pos ⟨hi0n, hkey0⟩]
      simp
  · intro off hoff
    by_cases hcond : i0 < p.count ∧ (p.key_time_at i0).1 = param
    · obtain ⟨hi0n, hkey0⟩ := hcond
      rw [hunf, if_pos ⟨hi0n, hkey0⟩] at hoff
      have hB0 := hB i0 (le_refl _) hi0n
      rw [pairLt_iff] at hB0
      have hts0 : lb.precise ≤ (p.key_time_at i0).2 := by omega
      refine ⟨i0, hi0n, by injection hoff, hkey0, hts0, ?_, ?_⟩
      · rintro j hj ⟨hkj, htsj⟩
        have hAj := hA j hj
        rw [pairLt_iff] at hAj
        omega
      · intro j hjn hkj htsj
        have hnotlt : ¬ pairLt (p.key_time_at j) (param, lb.precise) := by
          rw [pairLt_iff]
          omega
        have hge : i0 ≤ j := by
          by_contra hc
          exact hnotlt (hA j (by omega))
        have hmono := key_time_at_mono p hwf hs i0 j hge hjn
        rw [pairLe_iff] at hmono
        omega
    · rw [hunf, if_neg hcond] at hoff
      simp at hoff

/-- A filter of `range n` by a predicate that holds exactly on `[a, b)` is
`range' a (b - a)`. -/
theorem filter_range_eq_range' (n a b : Nat) (q : Nat → Bool)
    (hab : a ≤ b) (hbn : b ≤ n)
    (hq : ∀ i, i < n → (q i = true ↔ (a ≤ i ∧ i < b))) :
    (List.range n).filter q = List.range' a (b - a) := by
  have h1 : List.range' 0 a ++ List.range' a (b - a) = List.range' 0 b := by
    have := List.range'_append_1 0 a (b - a)
    simpa [Nat.sub_add_cancel hab] using this
  have h2 : List.range' 0 b ++ List.range' b (n - b) = List.range' 0 n := by
    have := List.range'_append_1 0 b (n - b)
    simpa [Nat.sub_add_cancel hbn] using this
  have hsplit : List.range n =
      (List.range' 0 a ++ List.range' a (b - a)) ++ List.range' b (n - b) := by
    rw [List.range_eq_range', h1, h2]
  rw [hsplit, List.filter_append, List.filter_append]
  have hfirst : (List.range' 0 a).filter q = [] := by
    rw [List.filter_eq_nil_iff]
    intro i hi
    rw [List.mem_range'_1] at hi
    intro hqi
    have := (hq i (by omega)).mp hqi
    omega
  have hmid : (List.range' a (b - a)).filter q = List.range' a (b - a) := by
    rw [List.filter_eq_self]
    intro i hi
    rw [List.mem_range'_1] at hi
    exact (hq i (by omega)).mpr (by omega)
  have hlast : (List.range' b (n - b)).filter q = [] := by
    rw [List.filter_eq_nil_iff]
    intro i hi
    rw [List.mem_range'_1] at hi
    intro hqi
    have := (hq i (by omega)).mp hqi
    omega
  rw [hfirst, hmid, hlast]
  simp

/-- On a well-formed sorted page the matching positions of a range query
form a contiguous run `[i0, i0 + L)` starting at the lower-bound position
`i0`, outside of which the scan condition fails. -/
theorem run_characterization (p : PageHeader) (param : ParamId) (lb ub : Int)
    (hwf : WellFormed p) (hs : List.Sorted p.entry_le p.page_index) :
    ∃ L, p.matches_list param lb ub =
        List.range' (p.page_lowerBound param lb) L ∧
      p.page_lowerBound param lb + L ≤ p.count ∧
      (∀ k, p.page_lowerBound param lb ≤ k →
        k < p.page_lowerBound param lb + L →
        (k < p.count ∧ p.scan_cond param ub k)) ∧
      (∀ k, p.page_lowerBound param lb + L ≤ k →
        ¬ (k < p.count ∧ p.scan_cond param ub k)) := by
  obtain ⟨hle, hA, hB⟩ := page_lowerBound_spec p param lb hwf hs
  set i0 := p.page_lowerBound param lb with hi0
  have hF1 : ∀ k, p.qualifies param lb ub k ↔
      (i0 ≤ k ∧ k < p.count ∧ p.scan_cond param ub k) := by
    intro k
    unfold PageHeader.qualifies PageHeader.scan_cond
    constructor
    · rintro ⟨hk, hkey, hlb, hub⟩
      have hge : i0 ≤ k := by
        by_contra hc
        have := hA k (by omega)
        rw [pairLt_iff] at this
        omega
      exact ⟨hge, hk, hkey, hub⟩
    · rintro ⟨hge, hk, hkey, hub⟩
      have := hB k hge hk
      rw [pairLt_iff] at this
      exact ⟨hk, hkey, by omega, hub⟩
  have hF2 : ∀ k k', i0 ≤ k → k ≤ k' →
      (k' < p.count ∧ p.scan_cond param ub k') →
      (k < p.count ∧ p.scan_cond param ub k) := by
    rintro k k' hge hkk ⟨hk', hc'⟩
    have hkn : k < p.count := by omega
    have hmono := key_time_at_mono p hwf hs k k' hkk hk'
    have hBk := hB k hge hkn
    rw [pairLe_iff] at hmono
    rw [pairLt_iff] at hBk
    unfold PageHeader.scan_cond at hc' ⊢
    refine ⟨hkn, by omega, by omega⟩
  have hex : ∃ m, ¬ ((i0 + m) < p.count ∧ p.scan_cond param ub (i0 + m)) :=
    ⟨p.count - i0, by omega⟩
  set L := Nat.find hex with hL
  have hrun : ∀ k, i0 ≤ k → k < i0 + L →
      (k < p.count ∧ p.scan_cond param ub k) := by
    intro k h1 h2
    have := Nat.find_min hex (m := k - i0) (by omega)
    simpa [Nat.add_sub_cancel' h1] using not_not.mp this
  have hstop : ¬ ((i0 + L) < p.count ∧ p.scan_cond param ub (i0 + L)) :=
    Nat.find_spec hex
  have hout : ∀ k, i0 + L ≤ k → ¬ (k < p.count ∧ p.scan_cond param ub k) := by
    intro k hk hSk
    exact hstop (hF2 (i0 + L) k (by omega) hk hSk)
  have hbound : i0 + L ≤ p.count := by
    rcases Nat.eq_zero_or_pos L with h0 | h0
    · omega
    · have := hrun (i0 + L - 1) (by omega) (by omega)
      omega
  refine ⟨L, ?_, hbound, hrun, hout⟩
  unfold PageHeader.matches_list
  have heq := filter_range_eq_range' p.count i0 (i0 + L)
    (fun i => decide (p.qualifies param lb ub i)) (by omega) hbound ?_
  · simpa [Nat.add_sub_cancel] using heq
  · intro i hi
    rw [decide_eq_true_iff, hF1 i]
    constructor
    · rintro ⟨h1, h2, h3⟩
      have : i < i0 + L := by
        by_contra hc
        exact hout i (by omega) ⟨h2, h3⟩
      omega
    · rintro ⟨h1, h2⟩
      exact ⟨h1, hrun i h1 h2⟩

/-- Specification of the scan loop: started inside the matching run
`[i0, i0 + L)` with a partially filled buffer, it either reaches the end
of the run, reporting exhaustion, or fills the buffer exactly and stops
inside the run. -/
theorem scan_aux_spec (p : PageHeader) (param : ParamId) (ub : Int)
    (cap : Nat) (i0 L : Nat)
    (hin : ∀ k, i0 ≤ k → k < i0 + L → (k < p.count ∧ p.scan_cond param ub k))
    (hout : ∀ k, i0 + L ≤ k → ¬ (k < p.count ∧ p.scan_cond param ub k)) :
    ∀ fuel probe acc, i0 + L - probe ≤ fuel → i0 ≤ probe → probe ≤ i0 + L →
      acc.length ≤ cap →
      p.scan_aux param ub cap probe acc =
        (if i0 + L - probe ≤ cap - acc.length then
          (acc ++ List.range' probe (i0 + L - probe), i0 + L, true)
        else
          (acc ++ List.range' probe (cap - acc.length),
            probe + (cap - acc.length), false)) := by
  intro fuel
  induction fuel with
  | zero =>
    intro probe acc hf h1 h2 hcap
    have hp : probe = i0 + L := by omega
    rw [PageHeader.scan_aux, dif_neg (hout probe (by omega)),
      if_pos (by omega)]
    simp [hp]
  | succ fuel ih =>
    intro probe acc hf h1 h2 hcap
    by_cases hend : probe = i0 + L
    · rw [PageHeader.scan_aux, dif_neg (hout probe (by omega)),
        if_pos (by omega)]
      simp [hend]
    · have hlt : probe < i0 + L := by omega
      have hS := hin probe h1 hlt
      rw [PageHeader.scan_aux, dif_pos hS]
      by_cases hroom : acc.length < cap
      · rw [if_pos hroom,
          ih (probe + 1) (acc ++ [probe]) (by omega) (by omega) (by omega)
            (by simp; omega)]
        by_cases hfits : i0 + L - probe ≤ cap - acc.length
        · rw [if_pos (by simp; omega), if_pos hfits]
          have hr : List.range' probe (i0 + L - probe) =
              probe :: List.range' (probe + 1) (i0 + L - (probe + 1)) := by
            have hnum : i0 + L - probe = (i0 + L - (probe + 1)) + 1 := by omega
            rw [hnum, List.range'_succ]
          rw [hr]
          simp
        · rw [if_neg (by simp; omega), if_neg hfits]
          have hr : List.range' probe (cap - acc.length) =
              probe :: List.range' (probe + 1) (cap - (acc.length + 1)) := by
            have hnum : cap - acc.length = (cap - (acc.length + 1)) + 1 := by
              omega
            rw [hnum, List.range'_succ]
          rw [hr]
          simp
          omega
      · rw [if_neg hroom, if_neg (by omega)]
        simp
        omega

/-- Unfolding the cursor search on a fresh cursor. -/
theorem search_cursor_eq_notStarted (p : PageHeader) (c : SingleParameterCursor)
    (h : c.state = CursorState.notStarted) :
    p.search_cursor c =
      { c with
        results := (p.scan_aux c.param c.upperbound.precise c.results_cap
          (p.page_lowerBound c.param c.lowerbound.precise) c.results).1
        results_num := (p.scan_aux c.param c.upperbound.precise c.results_cap
          (p.page_lowerBound c.param c.lowerbound.precise) c.results).1.length
        start_index := p.page_lowerBound c.param c.lowerbound.precise
        probe_index := (p.scan_aux c.param c.upperbound.precise c.results_cap
          (p.page_lowerBound c.param c.lowerbound.precise) c.results).2.1
        done := (p.scan_aux c.param c.upperbound.precise c.results_cap
          (p.page_lowerBound c.param c.lowerbound.precise) c.results).2.2
        state := if (p.scan_aux c.param c.upperbound.precise c.results_cap
            (p.page_lowerBound c.param c.lowerbound.precise) c.results).2.2
          then CursorState.exhausted else CursorState.bufferFull } := by
  unfold PageHeader.search_cursor
  rw [h]

/-- Unfolding the cursor search on a buffer-full cursor: the scan resumes
at `probe_index`. -/
theorem search_cursor_eq_bufferFull (p : PageHeader) (c : SingleParameterCursor)
    (h : c.state = CursorState.bufferFull) :
    p.search_cursor c =
      { c with
        results := (p.scan_aux c.param c.upperbound.precise c.results_cap
          c.probe_index c.results).1
        results_num := (p.scan_aux c.param c.upperbound.precise c.results_cap
          c.probe_index c.results).1.length
        probe_index := (p.scan_aux c.param c.upperbound.precise c.results_cap
          c.probe_index c.results).2.1
        done := (p.scan_aux c.param c.upperbound.precise c.results_cap
          c.probe_index c.results).2.2
        state := if (p.scan_aux c.param c.upperbound.precise c.results_cap
            c.probe_index c.results).2.2
          then CursorState.exhausted else CursorState.bufferFull } := by
  unfold PageHeader.search_cursor
  rw [h]

/-- Unfolding the cursor search on an exhausted cursor: it is left
untouched. -/
theorem search_cursor_eq_exhausted (p : PageHeader) (c : SingleParameterCursor)
    (h : c.state = CursorState.exhausted) :
    p.search_cursor c = c := by
  unfold PageHeader.search_cursor
  rw [h]

/-- Specification of the driven cursor calls: after `m + 1` calls over a
page whose matching run is `[i0, i0 + L)`, the cursor has returned the
matches `[i0 + min (m·cap) L, i0 + min ((m+1)·cap) L)` in the last batch,
its probe stands past the returned prefix, and `done` (with the
`exhausted` state) is set exactly when the run is exhausted. -/
theorem iterate_search_spec (p : PageHeader) (param : ParamId)
    (lb ub : TimeStamp) (cap : Nat) (i0 L : Nat)
    (hi0 : i0 = p.page_lowerBound param lb.precise)
    (hin : ∀ k, i0 ≤ k → k < i0 + L →
      (k < p.count ∧ p.scan_cond param ub.precise k))
    (hout : ∀ k, i0 + L ≤ k →
      ¬ (k < p.count ∧ p.scan_cond param ub.precise k)) :
    ∀ m,
      (p.iterate_search (SingleParameterCursor.make param lb ub cap)
        (m + 1)).results =
          List.range' (i0 + min (m * cap) L)
            (min ((m + 1) * cap) L - min (m * cap) L) ∧
      (p.iterate_search (SingleParameterCursor.make param lb ub cap)
        (m + 1)).results_cap = cap ∧
      (p.iterate_search (SingleParameterCursor.make param lb ub cap)
        (m + 1)).results_num =
          min ((m + 1) * cap) L - min (m * cap) L ∧
      (p.iterate_search (SingleParameterCursor.make param lb ub cap)
        (m + 1)).done = decide (L ≤ (m + 1) * cap) ∧
      (p.iterate_search (SingleParameterCursor.make param lb ub cap)
        (m + 1)).start_index = i0 ∧
      (p.iterate_search (SingleParameterCursor.make param lb ub cap)
        (m + 1)).probe_index = i0 + min ((m + 1) * cap) L ∧
      (p.iterate_search (SingleParameterCursor.make param lb ub cap)
        (m + 1)).state = (if L ≤ (m + 1) * cap then CursorState.exhausted
          else CursorState.bufferFull) ∧
      (p.iterate_search (SingleParameterCursor.make param lb ub cap)
        (m + 1)).param = param ∧
      (p.iterate_search (SingleParameterCursor.make param lb ub cap)
        (m + 1)).lowerbound = lb ∧
      (p.iterate_search (SingleParameterCursor.make param lb ub cap)
        (m + 1)).upperbound = ub := by
  subst hi0
  intro m
  induction m with
  | zero =>
    have hstep : p.iterate_search (SingleParameterCursor.make param lb ub cap)
        (0 + 1) =
        p.search_cursor (SingleParameterCursor.make param lb ub cap) := rfl
    rw [hstep, search_cursor_eq_notStarted p _ rfl]
    simp only [SingleParameterCursor.make]
    have hscan := scan_aux_spec p param ub.precise cap
      (p.page_lowerBound param lb.precise) L hin hout L
      (p.page_lowerBound param lb.precise) [] (by omega) (le_refl _)
      (by omega) (by simp)
    by_cases hLc : L ≤ cap
    · rw [if_pos (by simp; omega)] at hscan
      simp only [hscan]
      refine ⟨?_, ?_, ?_, ?_, ?_, ?_, ?_, ?_, ?_, ?_⟩ <;>
        simp [Nat.min_eq_right hLc, hLc]
    · rw [if_neg (by simp; omega)] at hscan
      simp only [hscan]
      refine ⟨?_, ?_, ?_, ?_, ?_, ?_, ?_, ?_, ?_, ?_⟩ <;>
        simp [Nat.min_eq_left (show cap ≤ L by omega), hLc]
  | succ m ih =>
    obtain ⟨hres, hcap2, hnum, hdone, hstart, hprobe, hstate, hparam, hlb,
      hub⟩ := ih
    have e1 : (m + 1 + 1) * cap = (m + 1) * cap + cap := by ring
    have e2 : (m + 1) * cap = m * cap + cap := by ring
    have hstep : p.iterate_search (SingleParameterCursor.make param lb ub cap)
        (m + 1 + 1) =
        p.search_cursor (SingleParameterCursor.drain
          (p.iterate_search (SingleParameterCursor.make param lb ub cap)
            (m + 1))) := rfl
    set c := p.iterate_search (SingleParameterCursor.make param lb ub cap)
      (m + 1) with hc
    by_cases hdone1 : L ≤ (m + 1) * cap
    · have hst : (SingleParameterCursor.drain c).state =
          CursorState.exhausted := by
        simp [SingleParameterCursor.drain, hstate, hdone1]
      rw [hstep, search_cursor_eq_exhausted p _ hst]
      have hmin1 : min ((m + 1) * cap) L = L := by omega
      have hmin2 : min ((m + 1 + 1) * cap) L = L := by omega
      refine ⟨?_, ?_, ?_, ?_, ?_, ?_, ?_, ?_, ?_, ?_⟩ <;>
        simp [SingleParameterCursor.drain, hres, hcap2, hnum, hdone, hstart,
          hprobe, hstate, hparam, hlb, hub, hmin1, hmin2, hdone1,
          show L ≤ (m + 1 + 1) * cap by omega]
    · have hst : (SingleParameterCursor.drain c).state =
          CursorState.bufferFull := by
        simp [SingleParameterCursor.drain, hstate, hdone1]
      rw [hstep, search_cursor_eq_bufferFull p _ hst]
      have hmin1 : min ((m + 1) * cap) L = (m + 1) * cap := by omega
      have ha1 : (SingleParameterCursor.drain c).param = param := by
        simp [SingleParameterCursor.drain, hparam]
      have ha2 : (SingleParameterCursor.drain c).upperbound = ub := by
        simp [SingleParameterCursor.drain, hub]
      have ha4 : (SingleParameterCursor.drain c).results_cap = cap := by
        simp [SingleParameterCursor.drain, hcap2]
      have ha5 : (SingleParameterCursor.drain c).probe_index =
          p.page_lowerBound param lb.precise + (m + 1) * cap := by
        simp [SingleParameterCursor.drain, hprobe, hmin1]
      have ha6 : (SingleParameterCursor.drain c).results = ([] : List Nat) := by
        simp [SingleParameterCursor.drain]
      rw [ha1, ha2, ha4, ha5, ha6]
      have hscan := scan_aux_spec p param ub.precise cap
        (p.page_lowerBound param lb.precise) L hin hout L
        (p.page_lowerBound param lb.precise + (m + 1) * cap)
        [] (by omega) (by omega) (by omega) (by simp)
      by_cases hfits : L ≤ (m + 1 + 1) * cap
      · rw [if_pos (by simp; omega)] at hscan
        simp only [hscan]
        have hmin2 : min ((m + 1 + 1) * cap) L = L := by omega
        refine ⟨?_, ?_, ?_, ?_, ?_, ?_, ?_, ?_, ?_, ?_⟩ <;>
          simp [SingleParameterCursor.drain, hstart, hparam, hlb, hub, hcap2,
            hmin1, hmin2, hfits] <;>
          omega
      · rw [if_neg (by simp; omega)] at hscan
        simp only [hscan]
        have hmin2 : min ((m + 1 + 1) * cap) L = (m + 1 + 1) * cap := by omega
        refine ⟨?_, ?_, ?_, ?_, ?_, ?_, ?_, ?_, ?_, ?_⟩ <;>
          simp [SingleParameterCursor.drain, hstart, hparam, hlb, hub, hcap2,
            hmin1, hmin2, hfits] <;>
          omega

/-- Concatenating the first `t` result batches of the driven search yields
the first `min (t·cap) L` matches. -/
theorem iterate_search_flatten (p : PageHeader) (param : ParamId)
    (lb ub : TimeStamp) (cap L : Nat)
    (hin : ∀ k, p.page_lowerBound param lb.precise ≤ k →
      k < p.page_lowerBound param lb.precise + L →
      (k < p.count ∧ p.scan_cond param ub.precise k))
    (hout : ∀ k, p.page_lowerBound param lb.precise + L ≤ k →
      ¬ (k < p.count ∧ p.scan_cond param ub.precise k)) :
    ∀ t, ((List.range t).map (fun m =>
        (p.iterate_search (SingleParameterCursor.make param lb ub cap)
          (m + 1)).results)).flatten =
      List.range' (p.page_lowerBound param lb.precise) (min (t * cap) L) := by
  intro t
  induction t with
  | zero => simp
  | succ t ih =>
    rw [List.range_succ, List.map_append, List.flatten_append, ih]
    have hspec := (iterate_search_spec p param lb ub cap
      (p.page_lowerBound param lb.precise) L rfl hin hout t).1
    simp only [List.map_cons, List.map_nil, List.flatten_cons,
      List.flatten_nil, List.append_nil, hspec]
    have e1 : (t + 1) * cap = t * cap + cap := by ring
    rw [List.range'_append_1]
    congr 1
    omega

/-- Claim C6 (amended): on a well-formed sorted page, a single-parameter
range query with more matches than the positive results-buffer capacity is
enumerated by repeated driven calls (the caller draining the buffer before
each call): the concatenated batches are exactly the matching index
positions, each exactly once (the match list has no duplicates), in
ascending timestamp order, and for the resulting number `k ≥ 2` of calls,
`done` is false after every call before the `k`-th and true exactly on the
`k`-th. -/
theorem cursor_resumable_enumeration (p : PageHeader) (param : ParamId)
    (lb ub : TimeStamp) (cap : Nat)
    (hwf : WellFormed p) (hs : List.Sorted p.entry_le p.page_index)
    (hcap : 0 < cap)
    (hmore : cap < (p.matches_list param lb.precise ub.precise).length) :
    ∃ k, 1 < k ∧
      ((List.range k).map (fun m =>
        (p.iterate_search (SingleParameterCursor.make param lb ub cap)
          (m + 1)).results)).flatten =
        p.matches_list param lb.precise ub.precise ∧
      (p.matches_list param lb.precise ub.precise).Nodup ∧
      List.Sorted (· ≤ ·)
        ((p.matches_list param lb.precise ub.precise).map
          (fun i => (p.key_time_at i).2)) ∧
      (∀ m, 1 ≤ m → m < k →
        (p.iterate_search (SingleParameterCursor.make param lb ub cap)
          m).done = false) ∧
      (p.iterate_search (SingleParameterCursor.make param lb ub cap)
        k).done = true := by
  obtain ⟨L, hM, hbound, hin, hout⟩ :=
    run_characterization p param lb.precise ub.precise hwf hs
  have hlen : (p.matches_list param lb.precise ub.precise).length = L := by
    rw [hM]
    simp
  have hmoreL : cap < L := by omega
  have hexk : ∃ k, L ≤ k * cap := ⟨L, by
    have := Nat.mul_le_mul_left L hcap
    omega⟩
  refine ⟨Nat.find hexk, ?_, ?_, ?_, ?_, ?_, ?_⟩
  · by_contra hc
    have h1 : Nat.find hexk ≤ 1 := by omega
    have h2 : L ≤ Nat.find hexk * cap := Nat.find_spec hexk
    have h3 : Nat.find hexk * cap ≤ 1 * cap :=
      Nat.mul_le_mul_right cap h1
    omega
  · rw [iterate_search_flatten p param lb ub cap L hin hout, hM]
    congr 1
    have h2 : L ≤ Nat.find hexk * cap := Nat.find_spec hexk
    omega
  · rw [hM]
    exact List.nodup_range' _ _
  · rw [hM]
    rw [List.Sorted, List.pairwise_map, List.pairwise_iff_getElem]
    intro i j hi hj hij
    simp only [List.getElem_range'_1]
    set i0 := p.page_lowerBound param lb.precise
    simp only [List.length_range'] at hi hj
    have hki := (hin (i0 + i) (by omega) (by omega)).2
    have hkj := hin (i0 + j) (by omega) (by omega)
    have hmono := key_time_at_mono p hwf hs (i0 + i) (i0 + j) (by omega)
      hkj.1
    rw [pairLe_iff] at hmono
    unfold PageHeader.scan_cond at hki hkj
    omega
  · intro m h1m hmk
    obtain ⟨t, rfl⟩ : ∃ t, m = t + 1 := ⟨m - 1, by omega⟩
    have hspec := (iterate_search_spec p param lb ub cap
      (p.page_lowerBound param lb.precise) L rfl hin hout t).2.2.2.1
    rw [hspec]
    simp only [decide_eq_false_iff_not]
    exact Nat.find_min hexk hmk
  · have hk1 : 1 ≤ Nat.find hexk := by
      by_contra hc
      have h2 : L ≤ Nat.find hexk * cap := Nat.find_spec hexk
      have h0 : Nat.find hexk = 0 := by omega
      rw [h0] at h2
      omega
    obtain ⟨t, ht⟩ : ∃ t, Nat.find hexk = t + 1 :=
      ⟨Nat.find hexk - 1, by omega⟩
    rw [ht]
    have hspec := (iterate_search_spec p param lb ub cap
      (p.page_lowerBound param lb.precise) L rfl hin hout t).2.2.2.1
    rw [hspec]
    simp only [decide_eq_true_eq]
    have h2 : L ≤ Nat.find hexk * cap := Nat.find_spec hexk
    rw [ht] at h2
    exact h2

/-- Witness for the amended C6 at the concrete sorted page: three matches
for key 7 in `[0, 1000]`, buffer capacity two, so two driven calls. -/
theorem cursor_resumable_enumeration_witness :
    ∃ k, 1 < k ∧
      ((List.range k).map (fun m =>
        (wSortedPage.iterate_search
          (SingleParameterCursor.make 7 ⟨0⟩ ⟨1000⟩ 2) (m + 1)).results)).flatten =
        wSortedPage.matches_list 7 (0 : Int) (1000 : Int) ∧
      (wSortedPage.matches_list 7 (0 : Int) (1000 : Int)).Nodup ∧
      List.Sorted (· ≤ ·)
        ((wSortedPage.matches_list 7 (0 : Int) (1000 : Int)).map
          (fun i => (wSortedPage.key_time_at i).2)) ∧
      (∀ m, 1 ≤ m → m < k →
        (wSortedPage.iterate_search
          (SingleParameterCursor.make 7 ⟨0⟩ ⟨1000⟩ 2) m).done = false) ∧
      (wSortedPage.iterate_search
        (SingleParameterCursor.make 7 ⟨0⟩ ⟨1000⟩ 2) k).done = true :=
  cursor_resumable_enumeration wSortedPage 7 ⟨0⟩ ⟨1000⟩ 2 (by decide) (by decide)
    (by decide) (by decide)

/-- Claim C6 counterexample: with a zero-capacity results buffer the match
count (three) exceeds the capacity, yet the driven search never makes
progress: the first call returns no results and leaves `done` false, and a
second call returns exactly the same cursor state, so repeated calls never
enumerate any match and `done` is never set on any call. -/
theorem cursor_zero_capacity_counterexample :
    (wSortedPage.matches_list 7 (0 : Int) (1000 : Int)).length = 3 ∧
    (wSortedPage.iterate_search
      (SingleParameterCursor.make 7 ⟨0⟩ ⟨1000⟩ 0) 1).results = [] ∧
    (wSortedPage.iterate_search
      (SingleParameterCursor.make 7 ⟨0⟩ ⟨1000⟩ 0) 1).done = false ∧
    wSortedPage.iterate_search (SingleParameterCursor.make 7 ⟨0⟩ ⟨1000⟩ 0) 2 =
      wSortedPage.iterate_search (SingleParameterCursor.make 7 ⟨0⟩ ⟨1000⟩ 0) 1 := by
  obtain ⟨L, hM, hbound, hin, hout⟩ :=
    run_characterization wSortedPage 7 0 1000 (by decide) (by decide)
  have hlen : (wSortedPage.matches_list 7 (0 : Int) (1000 : Int)).length = 3 :=
    by decide
  have hL : L = 3 := by
    rw [hM] at hlen
    simpa using hlen
  subst hL
  have hETA : ∀ c : SingleParameterCursor,
      c = { results := c.results, results_cap := c.results_cap,
            results_num := c.results_num, done := c.done,
            start_index := c.start_index, probe_index := c.probe_index,
            state := c.state, param := c.param, lowerbound := c.lowerbound,
            upperbound := c.upperbound } := fun c => rfl
  have hs0 := iterate_search_spec wSortedPage 7 ⟨0⟩ ⟨1000⟩ 0 _ 3 rfl hin hout 0
  have hs1 := iterate_search_spec wSortedPage 7 ⟨0⟩ ⟨1000⟩ 0 _ 3 rfl hin hout 1
  obtain ⟨a1, a2, a3, a4, a5, a6, a7, a8, a9, a10⟩ := hs0
  obtain ⟨b1, b2, b3, b4, b5, b6, b7, b8, b9, b10⟩ := hs1
  refine ⟨hlen, ?_, ?_, ?_⟩
  · show (wSortedPage.iterate_search
      (SingleParameterCursor.make 7 ⟨0⟩ ⟨1000⟩ 0) (0 + 1)).results = []
    rw [a1]
    simp
  · show (wSortedPage.iterate_search
      (SingleParameterCursor.make 7 ⟨0⟩ ⟨1000⟩ 0) (0 + 1)).done = false
    rw [a4]
    simp
  · show wSortedPage.iterate_search
        (SingleParameterCursor.make 7 ⟨0⟩ ⟨1000⟩ 0) (1 + 1) =
      wSortedPage.iterate_search (SingleParameterCursor.make 7 ⟨0⟩ ⟨1000⟩ 0)
        (0 + 1)
    rw [hETA (wSortedPage.iterate_search
      (SingleParameterCursor.make 7 ⟨0⟩ ⟨1000⟩ 0) (1 + 1)),
      hETA (wSortedPage.iterate_search
        (SingleParameterCursor.make 7 ⟨0⟩ ⟨1000⟩ 0) (0 + 1))]
    rw [a1, a2, a3, a4, a5, a6, a7, a8, a9, a10,
      b1, b2, b3, b4, b5, b6, b7, b8, b9, b10]

/-- Witness for C5 at the concrete sorted page: searching key 7 with lower
bound 150 succeeds, and every guarantee of the search contract holds
there. -/
theorem search_point_correct_witness :
    ((wSortedPage.search_point 7 ⟨150⟩).isSome ↔
      ∃ i, i < wSortedPage.count ∧ (wSortedPage.key_time_at i).1 = 7 ∧
        (150 : Int) ≤ (wSortedPage.key_time_at i).2) ∧
    (∀ off, wSortedPage.search_point 7 ⟨150⟩ = some off →
      ∃ i0, i0 < wSortedPage.count ∧ wSortedPage.page_index.getD i0 0 = off ∧
        (wSortedPage.key_time_at i0).1 = 7 ∧
        (150 : Int) ≤ (wSortedPage.key_time_at i0).2 ∧
        (∀ j, j < i0 →
          ¬ ((wSortedPage.key_time_at j).1 = 7 ∧
            (150 : Int) ≤ (wSortedPage.key_time_at j).2)) ∧
        (∀ j, j < wSortedPage.count → (wSortedPage.key_time_at j).1 = 7 →
          (150 : Int) ≤ (wSortedPage.key_time_at j).2 →
          (wSortedPage.key_time_at i0).2 ≤ (wSortedPage.key_time_at j).2)) :=
  search_point_correct wSortedPage 7 ⟨150⟩ (by decide) (by decide)

/-- Claim C1: appending a valid entry `e` (one that fits the free space)
to an empty page and passing its index (0) to `read_entry` returns a view
whose key, timestamp and payload bytes are identical to those of `e`. -/
theorem append_read_roundtrip (t : PageType) (len page_id : Nat) (e : Entry)
    (hfit : (e.length : Int) ≤ (PageHeader.make t 0 len page_id).get_free_space) :
    ∃ er : Entry,
      ((PageHeader.make t 0 len page_id).add_entry e).2.read_entry 0 = some er ∧
      er.param_id = e.param_id ∧ er.time = e.time ∧ er.value = e.value := by
  refine ⟨e, ?_, rfl, rfl, rfl⟩
  have h : ¬ ((PageHeader.make t 0 len page_id).get_free_space < (e.length : Int)) :=
    not_lt.mpr hfit
  simp only [PageHeader.add_entry]
  rw [if_neg h]
  simp [PageHeader.read_entry, PageHeader.make, List.lookup]

/-- Witness for C1 at a concrete page and entry. -/
theorem append_read_roundtrip_witness :
    ∃ er : Entry,
      ((PageHeader.make PageType.Index 0 4096 0).add_entry wEntry).2.read_entry 0 = some er ∧
      er.param_id = wEntry.param_id ∧ er.time = wEntry.time ∧ er.value = wEntry.value :=
  append_read_roundtrip PageType.Index 4096 0 wEntry (by decide)

/-- Claim C2: `add_entry` is atomic: when the record does not fit it
returns the distinct out-of-space code with the page (entry count, last
offset, index array, bounding box, data region) entirely unchanged, and
otherwise it returns the distinct success code having written the full
record. -/
theorem add_entry_atomic (p : PageHeader) (e : Entry) :
    AkuWriteStatus.success ≠ AkuWriteStatus.outOfSpace ∧
    (p.get_free_space < (e.length : Int) →
      (p.add_entry e).1 = AkuWriteStatus.outOfSpace ∧ (p.add_entry e).2 = p) ∧
    ((e.length : Int) ≤ p.get_free_space →
      (p.add_entry e).1 = AkuWriteStatus.success ∧
      (p.add_entry e).2.count = p.count + 1 ∧
      (p.add_entry e).2.last_offset = p.last_offset - e.length ∧
      (p.add_entry e).2.page_index = p.page_index ++ [p.last_offset - e.length] ∧
      (p.add_entry e).2.storage = (p.last_offset - e.length, e) :: p.storage ∧
      (p.add_entry e).2.bbox = PageHeader.update_bounding_box p.bbox e.param_id e.time) := by
  refine ⟨by simp, fun h => ?_, fun h => ?_⟩
  · simp [PageHeader.add_entry, h]
  · have h' : ¬ (p.get_free_space < (e.length : Int)) := not_lt.mpr h
    simp [PageHeader.add_entry, h']

/-- Witness for C2: both the out-of-space branch and the success branch at
concrete pages and entries. -/
theorem add_entry_atomic_witness :
    ((wPage.add_entry hugeEntry).1 = AkuWriteStatus.outOfSpace ∧
      (wPage.add_entry hugeEntry).2 = wPage) ∧
    ((wPage.add_entry wEntry).1 = AkuWriteStatus.success ∧
      (wPage.add_entry wEntry).2.count = wPage.count + 1 ∧
      (wPage.add_entry wEntry).2.last_offset = wPage.last_offset - wEntry.length ∧
      (wPage.add_entry wEntry).2.page_index =
        wPage.page_index ++ [wPage.last_offset - wEntry.length] ∧
      (wPage.add_entry wEntry).2.storage =
        (wPage.last_offset - wEntry.length, wEntry) :: wPage.storage ∧
      (wPage.add_entry wEntry).2.bbox =
        PageHeader.update_bounding_box wPage.bbox wEntry.param_id wEntry.time) :=
  ⟨(add_entry_atomic wPage hugeEntry).2.1 (by decide),
   (add_entry_atomic wPage wEntry).2.2 (by decide)⟩

/-- Claim C7: `get_free_space` is the gap between the entry-region
low-water mark and the index high-water mark minus the reservation for one
more index slot; a successful `add_entry` decreases it by exactly the
record's footprint (record size plus one index slot), hence by at least
the record size; and `add_entry` reports out-of-space exactly when the
free space is below the record size. -/
theorem free_space_accounting (p : PageHeader) (e : Entry) :
    p.get_free_space = (p.last_offset : Int)
      - ((PAGE_HEADER_SIZE : Int) + (INDEX_ENTRY_SIZE : Int) * p.count)
      - (INDEX_ENTRY_SIZE : Int) ∧
    ((p.add_entry e).1 = AkuWriteStatus.outOfSpace ↔
      p.get_free_space < (e.length : Int)) ∧
    ((e.length : Int) ≤ p.get_free_space →
      p.get_free_space - (p.add_entry e).2.get_free_space =
        (e.length : Int) + (INDEX_ENTRY_SIZE : Int) ∧
      (e.length : Int) ≤ p.get_free_space - (p.add_entry e).2.get_free_space) := by
  refine ⟨by unfold PageHeader.get_free_space; ring, ⟨?_, ?_⟩, fun h => ?_⟩
  · intro hs
    by_contra hlt
    simp [PageHeader.add_entry, hlt] at hs
  · intro hlt
    simp [PageHeader.add_entry, hlt]
  · have h' : ¬ (p.get_free_space < (e.length : Int)) := not_lt.mpr h
    have hlen : e.length ≤ p.last_offset := by
      unfold PageHeader.get_free_space PAGE_HEADER_SIZE INDEX_ENTRY_SIZE at h
      omega
    simp only [PageHeader.add_entry, if_neg h']
    unfold PageHeader.get_free_space PAGE_HEADER_SIZE INDEX_ENTRY_SIZE
    simp only
    constructor <;> omega

/-- Witness for C7 at a concrete page and entry. -/
theorem free_space_accounting_witness :
    wPage.get_free_space - (wPage.add_entry wEntry).2.get_free_space =
      (wEntry.length : Int) + (INDEX_ENTRY_SIZE : Int) ∧
    (wEntry.length : Int) ≤ wPage.get_free_space - (wPage.add_entry wEntry).2.get_free_space :=
  (free_space_accounting wPage wEntry).2.2 (by decide)

/-- Claim C9: for an index outside `[0, entry_count)`, `get_entry_length`
returns the sentinel 0 and `read_entry` returns null; inside the range (on
a structurally valid page) `get_entry_length` returns the stored record's
`length` field dereferenced through `page_index[i]`.  Both accessors are
pure functions of the page, so the page is unchanged by construction. -/
theorem entry_accessors_range (p : PageHeader) (i : Int) (hwf : WellFormed p) :
    (¬ (0 ≤ i ∧ i < (p.count : Int)) →
      p.get_entry_length i = 0 ∧ p.read_entry i = none) ∧
    ((0 ≤ i ∧ i < (p.count : Int)) →
      ∃ off e, p.page_index[i.toNat]? = some off ∧
        p.storage.lookup off = some e ∧
        p.get_entry_length i = (e.length : Int)) := by
  constructor
  · intro h
    have hre : p.read_entry i = none := by simp [PageHeader.read_entry, h]
    exact ⟨by simp [PageHeader.get_entry_length, hre], hre⟩
  · intro h
    obtain ⟨hc, hm⟩ := hwf
    have hi : i.toNat < p.page_index.length := by omega
    obtain ⟨off, hoff⟩ : ∃ off, p.page_index[i.toNat]? = some off :=
      ⟨_, List.getElem?_eq_getElem hi⟩
    have hmem : off ∈ p.page_index := List.getElem?_mem hoff
    obtain ⟨e, he⟩ := Option.isSome_iff_exists.mp (hm off hmem)
    refine ⟨off, e, hoff, he, ?_⟩
    simp [PageHeader.get_entry_length, PageHeader.read_entry, h, hoff, he]

/-- Witness for C9 at a concrete one-entry page, exercising both the
out-of-range and the in-range branch. -/
theorem entry_accessors_range_witness :
    (wPage1.get_entry_length 5 = 0 ∧ wPage1.read_entry 5 = none) ∧
    (∃ off e, wPage1.page_index[(0 : Int).toNat]? = some off ∧
      wPage1.storage.lookup off = some e ∧
      wPage1.get_entry_length 0 = (e.length : Int)) :=
  ⟨(entry_accessors_range wPage1 5 (by decide)).1 (by decide),
   (entry_accessors_range wPage1 0 (by decide)).2 (by decide)⟩

/-- Claim C3 counterexample: the three-way `copy_entry` contract fails as
stated.  `bigPage` stores at index 0 an entry whose `length` field is
`2^31 + 1`; with a receiver of capacity 0 (smaller than the entry),
`copy_entry` returns `2^31 - 1`, not the negation `-(2^31 + 1)` the
contract promises, because the C `int` return type wraps. -/
theorem copy_entry_contract_counterexample :
    bigPage.read_entry 0 = some bigEntry ∧
    (0 : Nat) < bigEntry.length ∧
    (bigPage.copy_entry 0 0).1 = 2 ^ 31 - 1 ∧
    (bigPage.copy_entry 0 0).1 ≠ -(bigEntry.length : Int) := by
  refine ⟨by decide, by decide, by decide, by decide⟩

/-- Claim C3 (amended): the three-way `copy_entry` contract — 0 when the
index is out of range; for an in-range stored entry, exactly the negated
length with nothing written when the receiver's capacity is smaller than
the entry's length, and exactly the length with the full record written
otherwise — holds for every stored entry whose length is at most
`2^31 - 1` (the lengths representable in the C `int` return type). -/
theorem copy_entry_contract (p : PageHeader) (i : Int) (rcap : Nat) :
    (¬ (0 ≤ i ∧ i < (p.count : Int)) → p.copy_entry i rcap = (0, none)) ∧
    (∀ e, p.read_entry i = some e → e.length ≤ 2 ^ 31 - 1 →
      (rcap < e.length → p.copy_entry i rcap = (-(e.length : Int), none)) ∧
      (e.length ≤ rcap → p.copy_entry i rcap = ((e.length : Int), some e))) := by
  constructor
  · intro h
    have hre : p.read_entry i = none := by simp [PageHeader.read_entry, h]
    simp [PageHeader.copy_entry, hre]
  · intro e he hlen
    constructor
    · intro hsmall
      simp [PageHeader.copy_entry, he, hsmall, toInt32_negWrap32 e.length hlen]
    · intro hbig
      have : ¬ (rcap < e.length) := not_lt.mpr hbig
      simp [PageHeader.copy_entry, he, this, toInt32_of_lt e.length (by omega)]

/-- Witness for the amended C3 at a concrete page: out-of-range, too-small
and success branches. -/
theorem copy_entry_contract_witness :
    wPage1.copy_entry 3 64 = (0, none) ∧
    wPage1.copy_entry 0 16 = (-(wEntry.length : Int), none) ∧
    wPage1.copy_entry 0 32 = ((wEntry.length : Int), some wEntry) :=
  ⟨(copy_entry_contract wPage1 3 64).1 (by decide),
   ((copy_entry_contract wPage1 0 16).2 wEntry (by decide) (by decide)).1 (by decide),
   ((copy_entry_contract wPage1 0 32).2 wEntry (by decide) (by decide)).2 (by decide)⟩

/-- Claim C10: `copy_entry` returns a signed `int` while the stored length
is an unsigned 32-bit value, so the sign-distinguished contract breaks
beyond `2^31 - 1`: for the stored entry of length `2^31 + 1` in `bigPage`,
the too-small branch returns `2^31 - 1` instead of the negated length and
the success branch returns `2^31 + 1 - 2^32 < 0` instead of the length —
both contracted values overflow the return type. -/
theorem copy_entry_int_overflow :
    2 ^ 31 - 1 < bigEntry.length ∧
    bigPage.read_entry 0 = some bigEntry ∧
    (bigPage.copy_entry 0 0).1 = 2 ^ 31 - 1 ∧
    (bigPage.copy_entry 0 0).1 ≠ -(bigEntry.length : Int) ∧
    (bigPage.copy_entry 0 bigEntry.length).1 = 2 ^ 31 + 1 - 2 ^ 32 ∧
    (bigPage.copy_entry 0 bigEntry.length).1 ≠ (bigEntry.length : Int) := by
  refine ⟨by decide, by decide, by decide, by decide, by decide, by decide⟩

/-- Claim C4: after `sort()` the index is totally ordered lexicographically
by (key ascending, timestamp ascending); entries sharing both key and
timestamp keep their original insertion-order relative positions (the
subsequence of index slots carrying any fixed (key, timestamp) value is
unchanged); and sorting a second time yields the same page as a single
`sort()`. -/
theorem sort_order_stable_idempotent (p : PageHeader) :
    List.Sorted p.entry_le (p.sort).page_index ∧
    (∀ v : Nat × Int,
      (p.sort).page_index.filter (fun o => decide (p.key_time o = v)) =
        p.page_index.filter (fun o => decide (p.key_time o = v))) ∧
    (p.sort).sort = p.sort := by
  have hsorted : List.Sorted p.entry_le (p.sort).page_index :=
    List.sorted_insertionSort p.entry_le p.page_index
  refine ⟨hsorted, fun v => ?_, ?_⟩
  · set q : EntryOffset → Bool := fun o => decide (p.key_time o = v) with hq
    set c : List EntryOffset := p.page_index.filter q with hc
    have hmemv : ∀ a ∈ c, p.key_time a = v := by
      intro a ha
      have h2 := (List.mem_filter.mp ha).2
      simpa [hq] using h2
    have hpw : c.Pairwise p.entry_le := by
      refine List.pairwise_of_forall_mem_list (fun a ha b hb => ?_)
      unfold PageHeader.entry_le pairLe
      rw [hmemv a ha, hmemv b hb]
      omega
    have hsub : List.Sublist c (p.sort).page_index :=
      List.sublist_insertionSort hpw (List.filter_sublist p.page_index)
    have hcq : c.filter q = c :=
      List.filter_eq_self.mpr (fun a ha => (List.mem_filter.mp ha).2)
    have hsub2 : List.Sublist c ((p.sort).page_index.filter q) := by
      have h3 := hsub.filter q
      rwa [hcq] at h3
    have hperm : List.Perm ((p.sort).page_index.filter q) c :=
      (List.perm_insertionSort p.entry_le p.page_index).filter q
    exact (hsub2.eq_of_length hperm.length_eq.symm).symm
  · have hs2 : List.Sorted (p.sort).entry_le (p.sort).page_index := hsorted
    show { p.sort with
        page_index := (p.sort).page_index.insertionSort (p.sort).entry_le } = p.sort
    rw [List.Sorted.insertionSort_eq hs2]


/-- `bbox_subset` is reflexive. -/
theorem bbox_subset_refl (b : PageBoundingBox) : bbox_subset b b := by
  unfold bbox_subset
  exact ⟨le_refl _, le_refl _, le_refl _, le_refl _⟩

/-- `bbox_subset` is transitive. -/
theorem bbox_subset_trans {a b c : PageBoundingBox} (h1 : bbox_subset a b)
    (h2 : bbox_subset b c) : bbox_subset a c := by
  unfold bbox_subset at h1 h2 ⊢
  exact ⟨le_trans h2.1 h1.1, le_trans h1.2.1 h2.2.1,
    le_trans h2.2.2.1 h1.2.2.1, le_trans h1.2.2.2 h2.2.2.2⟩

/-- Containment is monotone along `bbox_subset`. -/
theorem bbox_contains_mono {b1 b2 : PageBoundingBox} {k : ParamId} {t : Int}
    (h : bbox_contains b1 k t) (hsub : bbox_subset b1 b2) :
    bbox_contains b2 k t := by
  unfold bbox_contains at h ⊢
  unfold bbox_subset at hsub
  exact ⟨le_trans hsub.1 h.1, le_trans h.2.1 hsub.2.1,
    le_trans hsub.2.2.1 h.2.2.1, le_trans h.2.2.2 hsub.2.2.2⟩

/-- `update_bounding_box` never shrinks the box. -/
theorem update_bounding_box_subset (b : PageBoundingBox) (k : ParamId)
    (t : TimeStamp) :
    bbox_subset b (PageHeader.update_bounding_box b k t) := by
  unfold bbox_subset PageHeader.update_bounding_box
  exact ⟨min_le_left _ _, le_max_left _ _, min_le_left _ _, le_max_left _ _⟩

/-- The updated box contains the inserted pair. -/
theorem update_bounding_box_contains (b : PageBoundingBox) (k : ParamId)
    (t : TimeStamp) :
    bbox_contains (PageHeader.update_bounding_box b k t) k t.precise := by
  unfold bbox_contains PageHeader.update_bounding_box
  exact ⟨min_le_right _ _, le_max_right _ _, min_le_right _ _,
    le_max_right _ _⟩

/-- `add_entry` never shrinks the bounding box. -/
theorem add_entry_bbox_subset (p : PageHeader) (e : Entry) :
    bbox_subset p.bbox ((p.add_entry e).2).bbox := by
  unfold PageHeader.add_entry
  split
  · exact bbox_subset_refl _
  · exact update_bounding_box_subset _ _ _

/-- `appendAll` never shrinks the bounding box. -/
theorem appendAll_bbox_subset (p : PageHeader) (es : List Entry) :
    bbox_subset p.bbox (p.appendAll es).bbox := by
  induction es generalizing p with
  | nil => exact bbox_subset_refl _
  | cons e es ih =>
    exact bbox_subset_trans (add_entry_bbox_subset p e) (ih (p.add_entry e).2)

/-- After a successful `add_entry` the box contains the appended pair. -/
theorem add_entry_bbox_contains (p : PageHeader) (e : Entry)
    (hs : (p.add_entry e).1 = AkuWriteStatus.success) :
    bbox_contains ((p.add_entry e).2).bbox e.param_id e.time.precise := by
  unfold PageHeader.add_entry at hs ⊢
  by_cases hcond : p.get_free_space < (e.length : Int)
  · rw [if_pos hcond] at hs
    simp at hs
  · rw [if_neg hcond]
    exact update_bounding_box_contains _ _ _

/-- A freshly constructed page has an empty index, so `ReachInBox` holds
vacuously. -/
theorem make_reach_in_box (t : PageType) (count len page_id : Nat) :
    ReachInBox (PageHeader.make t count len page_id) := by
  unfold ReachInBox PageHeader.make
  intro off hoff e he
  simp at hoff

/-- `clear` empties the index, so `ReachInBox` holds for every cleared
page, whatever stale storage the clear leaves behind. -/
theorem clear_reach_in_box (p : PageHeader) : ReachInBox p.clear := by
  unfold ReachInBox PageHeader.clear
  intro off hoff e he
  simp at hoff

/-- `add_entry` preserves `ReachInBox`: the appended record lies in the
updated box (and shadows any stale record at its offset), while older
index slots keep dereferencing into the old box, which only grows. -/
theorem add_entry_reach_in_box (p : PageHeader) (e : Entry)
    (hr : ReachInBox p) : ReachInBox (p.add_entry e).2 := by
  by_cases hcond : p.get_free_space < (e.length : Int)
  · have hadd : (p.add_entry e).2 = p := by
      simp [PageHeader.add_entry, hcond]
    rw [hadd]
    exact hr
  · have hadd : (p.add_entry e).2 =
        { p with
          count := p.count + 1
          last_offset := p.last_offset - e.length
          bbox := PageHeader.update_bounding_box p.bbox e.param_id e.time
          page_index := p.page_index ++ [p.last_offset - e.length]
          storage := (p.last_offset - e.length, e) :: p.storage } := by
      simp [PageHeader.add_entry, hcond]
    rw [hadd]
    unfold ReachInBox at hr ⊢
    intro off hoff e2 he2
    have hoff2 : off ∈ p.page_index ∨ off = p.last_offset - e.length := by
      simpa using hoff
    by_cases heq : off = p.last_offset - e.length
    · subst heq
      have he3 : e = e2 := by simpa using he2
      obtain rfl := he3
      exact update_bounding_box_contains _ _ _
    · have he3 : p.storage.lookup off = some e2 := by
        have h4 : ((p.last_offset - e.length, e) :: p.storage).lookup off =
            some e2 := he2
        have hbeq : (off == p.last_offset - e.length) = false := by
          simpa using heq
        rw [List.lookup_cons, hbeq] at h4
        exact h4
      rcases hoff2 with h | h
      · exact bbox_contains_mono (hr off h e2 he3)
          (update_bounding_box_subset _ _ _)
      · exact absurd h heq

/-- `appendAll` preserves `ReachInBox`. -/
theorem appendAll_reach_in_box (p : PageHeader) (es : List Entry)
    (hr : ReachInBox p) : ReachInBox (p.appendAll es) := by
  induction es generalizing p with
  | nil => exact hr
  | cons e es ih => exact ih (p.add_entry e).2 (add_entry_reach_in_box p e hr)

/-- `sort` preserves `ReachInBox`: it only permutes the index. -/
theorem sort_reach_in_box (p : PageHeader) (hr : ReachInBox p) :
    ReachInBox p.sort := by
  unfold ReachInBox at hr ⊢
  intro off hoff e he
  have hmem : off ∈ p.page_index :=
    (List.perm_insertionSort p.entry_le p.page_index).mem_iff.mp hoff
  exact hr off hmem e he

/-- Every entry of a successfully appended sequence lands inside the final
bounding box. -/
theorem appendAll_bbox_contains (p : PageHeader) (es : List Entry)
    (hok : p.appendAllOk es) :
    ∀ e ∈ es, bbox_contains (p.appendAll es).bbox e.param_id e.time.precise := by
  induction es generalizing p with
  | nil =>
    intro e he
    cases he
  | cons e0 es ih =>
    obtain ⟨hs, hok2⟩ := hok
    intro e he
    rcases List.mem_cons.mp he with rfl | he2
    · exact bbox_contains_mono (add_entry_bbox_contains p e hs)
        (appendAll_bbox_subset (p.add_entry e).2 es)
    · exact ih (p.add_entry e0).2 hok2 e he2

/-- Claim C8: (1) after any sequence of successful appends the bounding
box contains every appended (key, timestamp) pair; (2) `inside_bbox` is
true iff the pair lies within the two closed intervals; (3) every
index-reachable record lies inside the box throughout the claim's
lifecycle — vacuously on a freshly constructed page (3a) and on any
cleared page regardless of the stale storage `clear` leaves behind (3b),
and preserved by any sequence of appends (3c) and by `sort` (3d); (4)
consequently, on a well-formed sorted page whose index-reachable records
lie inside the box — which by (3a)–(3d) covers every page built by
appends and a sort from a cleared or freshly constructed page — a query
window disjoint from the box yields zero matches from range search: the
match list is empty and the first driven call returns no results and
reports done. -/
theorem bounding_box_correct :
    (∀ (p : PageHeader) (es : List Entry), p.appendAllOk es →
      ∀ e ∈ es,
        bbox_contains (p.appendAll es).bbox e.param_id e.time.precise) ∧
    (∀ (p : PageHeader) (param : ParamId) (t : TimeStamp),
      p.inside_bbox param t = true ↔
        (p.bbox.min_id ≤ param ∧ param ≤ p.bbox.max_id ∧
         p.bbox.min_timestamp.precise ≤ t.precise ∧
         t.precise ≤ p.bbox.max_timestamp.precise)) ∧
    (∀ (t : PageType) (count len page_id : Nat),
      ReachInBox (PageHeader.make t count len page_id)) ∧
    (∀ p : PageHeader, ReachInBox p.clear) ∧
    (∀ (p : PageHeader) (es : List Entry), ReachInBox p →
      ReachInBox (p.appendAll es)) ∧
    (∀ p : PageHeader, ReachInBox p → ReachInBox p.sort) ∧
    (∀ (p : PageHeader) (param : ParamId) (lb ub : TimeStamp) (cap : Nat),
      WellFormed p → List.Sorted p.entry_le p.page_index →
      ReachInBox p →
      (param < p.bbox.min_id ∨ p.bbox.max_id < param ∨
        ub.precise < p.bbox.min_timestamp.precise ∨
        p.bbox.max_timestamp.precise < lb.precise) →
      p.matches_list param lb.precise ub.precise = [] ∧
      (p.iterate_search (SingleParameterCursor.make param lb ub cap)
        1).results = [] ∧
      (p.iterate_search (SingleParameterCursor.make param lb ub cap)
        1).done = true) := by
  refine ⟨appendAll_bbox_contains, ?_, make_reach_in_box, clear_reach_in_box,
    appendAll_reach_in_box, sort_reach_in_box, ?_⟩
  · intro p param t
    unfold PageHeader.inside_bbox
    simp [and_assoc]
  · intro p param lb ub cap hwf hs hreach hdisj
    have hnoq : ∀ i, ¬ p.qualifies param lb.precise ub.precise i := by
      intro i hq
      obtain ⟨hi, hkey, hlbq, hubq⟩ := hq
      obtain ⟨hc, hm⟩ := hwf
      have hi2 : i < p.page_index.length := by omega
      have hgetd : p.page_index.getD i 0 = p.page_index[i] := by
        rw [List.getD_eq_getElem?_getD, List.getElem?_eq_getElem hi2,
          Option.getD_some]
      have hoffmem : p.page_index.getD i 0 ∈ p.page_index := by
        rw [hgetd]
        exact List.getElem_mem hi2
      obtain ⟨e, he⟩ := Option.isSome_iff_exists.mp (hm _ hoffmem)
      have hkt : p.key_time_at i = (e.param_id, e.time.precise) := by
        unfold PageHeader.key_time_at PageHeader.key_time
        rw [he]
      have hcont := hreach _ hoffmem e he
      have hc1 : @LE.le Nat instLENat p.bbox.min_id e.param_id := hcont.1
      have hc2 : @LE.le Nat instLENat e.param_id p.bbox.max_id := hcont.2.1
      have hc3 : p.bbox.min_timestamp.precise ≤ e.time.precise := hcont.2.2.1
      have hc4 : e.time.precise ≤ p.bbox.max_timestamp.precise := hcont.2.2.2
      have hdisj2 : (@LT.lt Nat instLTNat param p.bbox.min_id ∨
          @LT.lt Nat instLTNat p.bbox.max_id param ∨
          ub.precise < p.bbox.min_timestamp.precise ∨
          p.bbox.max_timestamp.precise < lb.precise) := hdisj
      rw [hkt] at hkey hlbq hubq
      have hkey2 : @Eq Nat e.param_id param := hkey
      have hlbq2 : lb.precise ≤ e.time.precise := hlbq
      have hubq2 : e.time.precise ≤ ub.precise := hubq
      omega
    have hempty : p.matches_list param lb.precise ub.precise = [] := by
      unfold PageHeader.matches_list
      rw [List.filter_eq_nil_iff]
      intro i hi hq
      exact hnoq i (of_decide_eq_true hq)
    obtain ⟨L, hM, hbound, hin, hout⟩ :=
      run_characterization p param lb.precise ub.precise hwf hs
    have hL0 : L = 0 := by
      rw [hempty] at hM
      have := List.range'_eq_nil.mp hM.symm
      omega
    subst hL0
    have hspec := iterate_search_spec p param lb ub cap _ 0 rfl hin hout 0
    obtain ⟨h1, h2, h3, h4, h5, h6, h7, h8, h9, h10⟩ := hspec
    refine ⟨hempty, ?_, ?_⟩
    · show (p.iterate_search (SingleParameterCursor.make param lb ub cap)
        (0 + 1)).results = []
      rw [h1]
      simp
    · show (p.iterate_search (SingleParameterCursor.make param lb ub cap)
        (0 + 1)).done = true
      rw [h4]
      simp

/-- Witness for C8 at concrete pages: an appended entry is inside the
box; `inside_bbox` evaluates per the intervals; `ReachInBox` holds for a
fresh page, for a cleared page with stale storage, after appends and
after a sort; and on the cleared-then-refilled sorted page `wClearedPage`
(which still stores a stale key-100 record outside its reset box) the
disjoint query for key 100 yields an empty match list and an immediately
done cursor. -/
theorem bounding_box_correct_witness :
    bbox_contains ((wPage.appendAll [wEntry]).bbox) wEntry.param_id
      wEntry.time.precise ∧
    (wPage1.inside_bbox 7 ⟨100⟩ = true ↔
      (wPage1.bbox.min_id ≤ 7 ∧ 7 ≤ wPage1.bbox.max_id ∧
       wPage1.bbox.min_timestamp.precise ≤ (100 : Int) ∧
       (100 : Int) ≤ wPage1.bbox.max_timestamp.precise)) ∧
    ReachInBox (PageHeader.make PageType.Index 0 4096 0) ∧
    ReachInBox (wPage1.clear) ∧
    ReachInBox (wPage.appendAll [wEntry]) ∧
    ReachInBox wPage1.sort ∧
    (wClearedPage.matches_list 100 (0 : Int) (1000 : Int) = [] ∧
      (wClearedPage.iterate_search
        (SingleParameterCursor.make 100 ⟨0⟩ ⟨1000⟩ 2) 1).results = [] ∧
      (wClearedPage.iterate_search
        (SingleParameterCursor.make 100 ⟨0⟩ ⟨1000⟩ 2) 1).done = true) :=
  ⟨bounding_box_correct.1 wPage [wEntry] (by decide) wEntry (by decide),
   bounding_box_correct.2.1 wPage1 7 ⟨100⟩,
   bounding_box_correct.2.2.1 PageType.Index 0 4096 0,
   bounding_box_correct.2.2.2.1 wPage1,
   bounding_box_correct.2.2.2.2.1 wPage [wEntry] (by decide),
   bounding_box_correct.2.2.2.2.2.1 wPage1 (by decide),
   bounding_box_correct.2.2.2.2.2.2 wClearedPage 100 ⟨0⟩ ⟨1000⟩ 2 (by decide)
     (by decide) (by decide) (by decide)⟩

end Akumuli
